import Mathlib

/-!
Verification of the trade-ingestion and rate-limiting core of the
insider-trading-app repository, as a shallow embedding in Lean 4.

Python strings are modelled as `List Char`.  `str.lower`/`str.upper` are
modelled character-faithfully on the alphabet this development uses:
ASCII case mapping, plus the CPython behaviours `upper 'ß' = "SS"` and
`upper 'ſ' = "S"` (the one-to-many uppercase expansions exercised below);
other non-ASCII characters are case-fixed points here.  All machine
integers of the source are unbounded Python ints, so they are modelled by
`Int`; `decimal.Decimal` values and `float` time stamps are modelled by
`Rat` (exact arithmetic, which agrees with `Decimal` on the magnitudes
involved).
-/

namespace Spec2Proof

/-- Python `str`, modelled as a list of characters. -/
abbrev Str := List Char

/-- Characters stripped by Python's `str.strip()` / split on by `str.split()`
(the ASCII whitespace fragment). -/
def pyWS (c : Char) : Bool :=
  c = ' ' || c = '\t' || c = '\n' || c = '\r' || c = Char.ofNat 11 || c = Char.ofNat 12

/-- Python `str.strip()`: drop whitespace from both ends. -/
def pyStrip (l : Str) : Str :=
  ((l.dropWhile pyWS).reverse.dropWhile pyWS).reverse

/-- The ASCII letter case table. -/
def upperTable : List (Char × Char) :=
  [('a', 'A'), ('b', 'B'), ('c', 'C'), ('d', 'D'), ('e', 'E'), ('f', 'F'),
   ('g', 'G'), ('h', 'H'), ('i', 'I'), ('j', 'J'), ('k', 'K'), ('l', 'L'),
   ('m', 'M'), ('n', 'N'), ('o', 'O'), ('p', 'P'), ('q', 'Q'), ('r', 'R'),
   ('s', 'S'), ('t', 'T'), ('u', 'U'), ('v', 'V'), ('w', 'W'), ('x', 'X'),
   ('y', 'Y'), ('z', 'Z')]

/-- ASCII lower-to-upper character map (identity off `a`-`z`). -/
def upperChar (c : Char) : Char :=
  match upperTable.find? (fun pr => pr.1 = c) with
  | some pr => pr.2
  | none => c

/-- ASCII upper-to-lower character map (identity off `A`-`Z`). -/
def lowerChar (c : Char) : Char :=
  match upperTable.find? (fun pr => pr.2 = c) with
  | some pr => pr.1
  | none => c

/-- CPython `str.upper` on one character: one-to-many on `ß` and `ſ`,
ASCII shift otherwise. -/
def pyUpperChar (c : Char) : Str :=
  if c = 'ß' then ['S', 'S'] else if c = 'ſ' then ['S'] else [upperChar c]

/-- Python `str.upper`. -/
def pyUpper : Str → Str
  | [] => []
  | c :: r => pyUpperChar c ++ pyUpper r

/-- Python `str.lower` (character-wise on this alphabet). -/
def pyLower (l : Str) : Str := l.map lowerChar

/-- Helper for `str.split()`-style splitting: maximal runs of characters
satisfying `ok`, in order, dropping the separators. -/
def wordsByAux (ok : Char → Bool) : Str → Str → List Str
  | [], acc => if acc.isEmpty then [] else [acc.reverse]
  | c :: r, acc =>
    if ok c then wordsByAux ok r (c :: acc)
    else if acc.isEmpty then wordsByAux ok r [] else acc.reverse :: wordsByAux ok r []

/-- Maximal `ok`-runs of a string. -/
def wordsBy (ok : Char → Bool) (l : Str) : List Str := wordsByAux ok l []

/-- Join a list of words with the single character `c`. -/
def joinWith (c : Char) : List Str → Str
  | [] => []
  | w :: ws => match ws with
    | [] => w
    | _ :: _ => w ++ c :: joinWith c ws

/-- Python `" ".join(s.split())`: collapse runs of whitespace to single
spaces and trim the ends. -/
def collapseWS (l : Str) : Str := joinWith ' ' (wordsBy (fun c => !pyWS c) l)

/-- En and em dashes are rewritten to `-` in `normalize_form`. -/
def dashChar (c : Char) : Char := if c = '–' then '-' else if c = '—' then '-' else c

/-- The normalized text `t` of `normalize_form`:
`" ".join(raw.lower().split())` with en/em dashes replaced by `-`. -/
def mkT (raw : Str) : Str := (collapseWS (pyLower raw)).map dashChar

/-- Python `pat in t`: substring test. -/
def containsSub (pat : Str) : Str → Bool
  | [] => pat.isPrefixOf []
  | c :: r => pat.isPrefixOf (c :: r) || containsSub pat r

/-!
The `re.search` patterns of `forms.py` are written inside *raw* strings with
doubled backslashes, e.g. `r"(?:^|\\b)4\\b"`.  In a raw string `\\b` is the
two-character regex `\\` `b`, i.e. a literal backslash followed by the letter
`b` - not a word boundary.  The embedding below reproduces exactly that
semantics: each pattern matches either at the start of the text or right
after the literal two-character sequence backslash-`b`, and the `\\s*` /
`\\b` parts demand literal backslashes in the subject text.
-/

/-- Search for `(?:^|\\b)` followed by `body`: the body must match at the
start of the text or immediately after a literal `\b` two-character
sequence somewhere in the text. -/
def searchBS (body : Str → Bool) : Str → Bool
  | [] => false
  | '\\' :: 'b' :: rest => body rest || searchBS body ('b' :: rest)
  | _ :: r => searchBS body r

/-- `re.search(r"(?:^|\\b)<body>", t)` under the raw-string reading. -/
def searchPat (body : Str → Bool) (t : Str) : Bool := body t || searchBS body t

/-- Body of the amendment pattern `(?:amend(?:ment)?|a)\\b`. -/
def bodyAmend (l : Str) : Bool :=
  "amendment\\b".data.isPrefixOf l || "amend\\b".data.isPrefixOf l ||
    "a\\b".data.isPrefixOf l

/-- Body of `13\\s*d\\b`. -/
def body13d (l : Str) : Bool :=
  "13\\".data.isPrefixOf l &&
    "d\\b".data.isPrefixOf ((l.drop 3).dropWhile (fun c => c = 's'))

/-- Body of `13\\s*f\\b`. -/
def body13f (l : Str) : Bool :=
  "13\\".data.isPrefixOf l &&
    "f\\b".data.isPrefixOf ((l.drop 3).dropWhile (fun c => c = 's'))

/-- Body of `8\\s*-?\\s*k\\b`. -/
def body8k (l : Str) : Bool :=
  "8\\".data.isPrefixOf l &&
    (let m := (l.drop 2).dropWhile (fun c => c = 's')
     let m2 := match m with | '-' :: r => r | _ => m
     "\\".data.isPrefixOf m2 &&
       "k\\b".data.isPrefixOf ((m2.drop 1).dropWhile (fun c => c = 's')))

/-- Body of `10\\s*-?\\s*k\\b`. -/
def body10k (l : Str) : Bool :=
  "10\\".data.isPrefixOf l &&
    (let m := (l.drop 3).dropWhile (fun c => c = 's')
     let m2 := match m with | '-' :: r => r | _ => m
     "\\".data.isPrefixOf m2 &&
       "k\\b".data.isPrefixOf ((m2.drop 1).dropWhile (fun c => c = 's')))

/-- Body of `3\\b`. -/
def body3 (l : Str) : Bool := "3\\b".data.isPrefixOf l

/-- Body of `4\\b`. -/
def body4 (l : Str) : Bool := "4\\b".data.isPrefixOf l

/-- The amendment marker test of `normalize_form`. -/
def amendFlag (t : Str) : Bool :=
  searchPat bodyAmend t || containsSub "/a".data t || containsSub "-a".data t

/-- The `/A` amendment suffix appended when an amendment marker is seen. -/
def amendSuffix (t : Str) : Str := if amendFlag t then "/A".data else []

/-- The classification part of `normalize_form` applied to the stripped,
non-empty input `raw` (`forms.py`, lines 41-67); `mkT raw` is the
normalized text `t`. -/
def classifyRaw (raw : Str) : Str :=
  if containsSub "congress".data (mkT raw) then "CONGRESS".data
  else if searchPat body13d (mkT raw) then "SCHEDULE 13D".data ++ amendSuffix (mkT raw)
  else if searchPat body13f (mkT raw) then "FORM 13F".data ++ amendSuffix (mkT raw)
  else if searchPat body8k (mkT raw) then "FORM 8-K".data ++ amendSuffix (mkT raw)
  else if searchPat body10k (mkT raw) then "FORM 10-K".data ++ amendSuffix (mkT raw)
  else if searchPat body3 (mkT raw) then "FORM 3".data ++ amendSuffix (mkT raw)
  else if searchPat body4 (mkT raw) then "FORM 4".data ++ amendSuffix (mkT raw)
  else if "form ".data.isPrefixOf (mkT raw) || "schedule ".data.isPrefixOf (mkT raw) then
    pyUpper raw
  else raw

/-- `normalize_form` on a string input (`forms.py`, lines 37-67). -/
def normalizeFormStr (x : Str) : Option Str :=
  let raw := pyStrip x
  if raw.isEmpty then none else some (classifyRaw raw)

/-- `normalize_form(normalize_form(x))`: the outer call receives an
`Optional[str]` and maps `None` to `None`. -/
def normalizeFormOpt : Option Str → Option Str
  | none => none
  | some s => normalizeFormStr s

/-- `FORM_PREFIX_ORDER` from `forms.py`. -/
def FORM_PREFIX_ORDER : List Str :=
  ["FORM 3".data, "FORM 4".data, "SCHEDULE 13D".data, "FORM 13F".data,
   "FORM 8-K".data, "FORM 10-K".data, "CONGRESS".data]

/-- The ordered legacy-fallback chain of `form_prefix` (`forms.py`,
lines 77-92), as `(tested prefix, returned canonical prefix)` pairs in
source order. -/
def FORM_FALLBACKS : List (Str × Str) :=
  [("FORM 8K".data, "FORM 8-K".data), ("FORM 10K".data, "FORM 10-K".data),
   ("FORM 13D".data, "SCHEDULE 13D".data), ("FORM 13F".data, "FORM 13F".data),
   ("FORM 3".data, "FORM 3".data), ("FORM 4".data, "FORM 4".data),
   ("SCHEDULE 13D".data, "SCHEDULE 13D".data), ("CONGRESS".data, "CONGRESS".data)]

/-- `form_prefix` from `forms.py`: canonical-prefix lookup, then the
ordered legacy fallback chain.  A `None` or empty argument is falsy and
yields `None`. -/
def formPrefixOf : Option Str → Option Str
  | none => none
  | some f =>
    if f.isEmpty then none
    else
      let text := pyUpper (pyStrip f)
      match FORM_PREFIX_ORDER.find? (fun p => p.isPrefixOf text) with
      | some p => some p
      | none =>
        match FORM_FALLBACKS.find? (fun pr => pr.1.isPrefixOf text) with
        | some pr => some pr.2
        | none => none

/-!  ## JSON-decoded Python values and the lenient coercers of `ingest.py` -/

/-- A JSON-decoded Python value as the coercers receive it.  `float`
payloads are the (finite) rational value of the double; the non-finite
floats, on which `str(int(value))` raises, are modelled separately by
`PyFloat`/`normalizeFormFloat` below.  Containers and other objects are
collapsed into `other` since every coercer rejects them uniformly. -/
inductive PyVal where
  | none
  | bool (b : Bool)
  | int (n : Int)
  | float (q : Rat)
  | str (s : Str)
  | other
deriving DecidableEq

/-- Python `int(...)` on a finite float / `Decimal`: truncation toward
zero. -/
def ratTrunc (q : Rat) : Int := if q < 0 then -(Int.floor (-q)) else Int.floor q

/-- Python `str(...)` of an int (decimal digits, `-` sign). -/
def intToStr (n : Int) : Str := (toString n).data

/-- `normalize_form` on an arbitrary value (`forms.py`, lines 27-35):
`None` and booleans yield `None`, ints and (finite) floats are
stringified via `str(int(value))`, other non-strings yield `None`. -/
def normalizeForm : PyVal → Option Str
  | .none => none
  | .bool _ => none
  | .int n => normalizeFormStr (intToStr n)
  | .float q => normalizeFormStr (intToStr (ratTrunc q))
  | .str s => normalizeFormStr s
  | .other => none

/-- A CPython float, including the non-finite values on which
`int(value)` raises. -/
inductive PyFloat where
  | finite (q : Rat)
  | nan
  | inf
  | ninf
deriving DecidableEq

/-- Result of `normalize_form` on a float argument: the returned value,
or the exception that escapes. -/
inductive NFRes where
  | ok (v : Option Str)
  | valueError
  | overflowError
deriving DecidableEq

/-- `normalize_form` restricted to float inputs (`forms.py`, lines
32-33): a finite float is truncated and stringified by `str(int(value))`
and then classified; on `nan` the `int(value)` call raises `ValueError`
and on the infinities `OverflowError`, neither of which `normalize_form`
catches. -/
def normalizeFormFloat : PyFloat → NFRes
  | .finite q => .ok (normalizeFormStr (intToStr (ratTrunc q)))
  | .nan => .valueError
  | .inf => .overflowError
  | .ninf => .overflowError

/-- Decimal digit test. -/
def isDig (c : Char) : Bool := '0' ≤ c && c ≤ '9'

/-- Numeric value of a digit string. -/
def digitsVal (l : Str) : Nat := l.foldl (fun a c => a * 10 + (c.toNat - 48)) 0

/-- `decimal.Decimal(v)` on the sign/digits/point fragment of its input
grammar (`[+-] digits [. digits]`, at least one digit).  Exponent forms
and specials are not modelled; on this pipeline they either never reach
the parser or end in the same `except`-branch rejection. -/
def parseDecStr (l : Str) : Option Rat :=
  let (sgn, l1) : Rat × Str := match l with
    | '+' :: r => (1, r)
    | '-' :: r => (-1, r)
    | _ => (1, l)
  let ip := l1.takeWhile isDig
  let rest := l1.dropWhile isDig
  match rest with
  | [] => if ip.isEmpty then none else some (sgn * (digitsVal ip : Rat))
  | '.' :: fp =>
    if fp.all isDig && !(ip.isEmpty && fp.isEmpty) then
      some (sgn * ((digitsVal ip : Rat) + (digitsVal fp : Rat) / ((10 : Rat) ^ fp.length)))
    else none
  | _ => none

/-- `_parse_int` from `ingest.py` (lines 274-291): `None`/bool rejected,
ints passed through, floats truncated toward zero, strings stripped,
comma-cleaned and parsed as `int(Decimal(v))`. -/
def parse_int : PyVal → Option Int
  | .none => none
  | .bool _ => none
  | .int n => some n
  | .float q => some (ratTrunc q)
  | .str s =>
    let v := (pyStrip s).filter (fun c => !(c = ','))
    if v.isEmpty then none
    else match parseDecStr v with
      | some q => some (ratTrunc q)
      | none => none
  | .other => none

/-- `_parse_decimal` from `ingest.py` (lines 294-311). -/
def parse_decimal : PyVal → Option Rat
  | .none => none
  | .bool _ => none
  | .int n => some (n : Rat)
  | .float q => some q
  | .str s =>
    let v := (pyStrip s).filter (fun c => !(c = ','))
    if v.isEmpty then none else parseDecStr v
  | .other => none

/-- Result of a pydantic `mode="before"` field validator: either a coerced
value (with `none` meaning "field absent") or a raised per-item
`ValueError`. -/
inductive VRes where
  | ok (v : Option Int)
  | invalid
deriving DecidableEq

/-- `IngestTradeItem._validate_int` (`ingest.py`, lines 147-157): `None` and
blank strings mean "absent", an unparseable value raises a per-item
validation error, anything else coerces. -/
def validate_int (v : PyVal) : VRes :=
  match v with
  | .none => .ok none
  | .str s => if (pyStrip s).isEmpty then .ok none else
      match parse_int (.str s) with
      | some n => .ok (some n)
      | none => .invalid
  | _ =>
    match parse_int v with
    | some n => .ok (some n)
    | none => .invalid

/-!  ## The fixed-window rate limiter of `security.py` -/

/-- In-memory state of `FixedWindowRateLimiter`: the `_counters` dict is an
association list `key -> (window_start, count)` in insertion order. -/
structure RLState where
  windowSeconds : Int
  maxKeys : Nat
  counters : List (Str × Int × Int)
  lastPruneAt : Rat
deriving DecidableEq

/-- `_window_start`: `int(now // window_seconds) * window_seconds`
(float floor division, so the floor of `now / w`). -/
def windowStartAt (w : Int) (now : Rat) : Int := Int.floor (now / (w : Rat)) * w

/-- Dict update: overwrite the entry for `key` in place, or append. -/
def setCounter (l : List (Str × Int × Int)) (key : Str) (v : Int × Int) :
    List (Str × Int × Int) :=
  match l with
  | [] => [(key, v)]
  | e :: r => if e.1 = key then (key, v) :: r else e :: setCounter r key v

/-- `_prune`: record the prune time and drop entries whose window started
before the previous window. -/
def pruneRL (st : RLState) (now : Rat) : RLState :=
  let cutoff := windowStartAt st.windowSeconds now - st.windowSeconds
  { st with lastPruneAt := now,
            counters := st.counters.filter (fun e => !(e.2.1 < cutoff)) }

/-- The `count` read by `hit`: the stored counter for `key` when its window
is the current one, else 0 (missing or stale entries restart at 0). -/
def countOf (l : List (Str × Int × Int)) (key : Str) (ws : Int) : Int :=
  match l.find? (fun e => e.1 = key) with
  | some e => if e.2.1 = ws then e.2.2 else 0
  | none => 0

/-- `FixedWindowRateLimiter.hit` (`security.py`, lines 72-103): returns
`none` when admitted, `some retryAfterSeconds` when blocked. -/
def hit (st : RLState) (key : Str) (limit : Int) (now : Rat) :
    Option Int × RLState :=
  if limit ≤ 0 then (some st.windowSeconds, st)
  else
    let ws : Int := windowStartAt st.windowSeconds now
    let count : Int := countOf st.counters key ws
    if limit ≤ count then
      (some (max (1 : Int) (ratTrunc ((ws : Rat) + (st.windowSeconds : Rat) - now))), st)
    else
      let st1 := { st with counters := setCounter st.counters key (ws, count + 1) }
      let st2 := if st1.counters.length > st1.maxKeys && 10 < now - st1.lastPruneAt
                 then pruneRL st1 now else st1
      (none, st2)

/-- A freshly constructed limiter (`__init__` with `window_seconds = w`,
default `max_keys`; `w > 0` is enforced by the constructor). -/
def mkLimiter (w : Int) : RLState := ⟨w, 50000, [], 0⟩

/-- Run a sequence of `(key, now)` hits against one limiter at a fixed
per-key limit, keeping only the final state. -/
def runHits (L : Int) : RLState → List (Str × Rat) → RLState
  | st, [] => st
  | st, (k, t) :: r => runHits L (hit st k L t).2 r

/-!  ## The ingestion pipeline of `ingest.py` (`ingest_trades`)

Items are modelled after pydantic validation: every business field is an
already-coerced optional value (dates are abstract `Int` stamps - the
pipeline only moves them around), and `form` is the required raw string.
The `Trade.raw` payload column, its size cap and the response-side
`errors[:50]` truncation are not modelled; no claim touches them.  The
sha256 content digest of `_make_external_id` enters as an explicit
`hash` parameter over the projected stable fields. -/

/-- A validated `IngestTradeItem`. -/
structure Item where
  external_id : Option Str := none
  ticker : Option Str := none
  company_name : Option Str := none
  person_name : Option Str := none
  person_slug : Option Str := none
  transaction_type : Option Str := none
  form : Str
  url : Option Str := none
  transaction_date : Option Int := none
  filed_at : Option Int := none
  amount_usd_low : Option Int := none
  amount_usd_high : Option Int := none
  amount_usd : Option Int := none
  shares : Option Int := none
  price_usd : Option Rat := none
deriving DecidableEq

/-- A persisted `Trade` row (the columns the ingestion writes). -/
structure Trade where
  external_id : Str
  ticker : Option Str
  company_name : Option Str
  person_name : Option Str
  person_slug : Option Str
  transaction_type : Option Str
  form : Option Str
  url : Option Str
  transaction_date : Option Int
  filed_at : Option Int
  amount_usd_low : Option Int
  amount_usd_high : Option Int
  shares : Option Int
  price_usd : Option Rat
deriving DecidableEq

/-- The normalized per-item `payload` dict built at lines 459-475. -/
structure Payload where
  external_id : Option Str
  ticker : Option Str
  company_name : Option Str
  person_name : Option Str
  person_slug : Option Str
  transaction_type : Option Str
  form : Option Str
  url : Option Str
  transaction_date : Option Int
  filed_at : Option Int
  amount_usd_low : Option Int
  amount_usd_high : Option Int
  shares : Option Int
  price_usd : Option Rat
deriving DecidableEq

/-- The stable identifying fields hashed by `_make_external_id`
(`ingest.py`, lines 314-332; note: no `person_slug`). -/
structure Stable where
  ticker : Option Str
  company_name : Option Str
  person_name : Option Str
  transaction_type : Option Str
  form : Option Str
  transaction_date : Option Int
  filed_at : Option Int
  amount_usd_low : Option Int
  amount_usd_high : Option Int
  shares : Option Int
  price_usd : Option Rat
  url : Option Str
deriving DecidableEq

def stableOf (p : Payload) : Stable :=
  { ticker := p.ticker, company_name := p.company_name,
    person_name := p.person_name, transaction_type := p.transaction_type,
    form := p.form, transaction_date := p.transaction_date,
    filed_at := p.filed_at, amount_usd_low := p.amount_usd_low,
    amount_usd_high := p.amount_usd_high, shares := p.shares,
    price_usd := p.price_usd, url := p.url }

/-- `_make_external_id`: `"gen:" + sha256(canonical json of stable fields)`;
the digest is the abstract `hash` parameter. -/
def makeExternalId (hash : Stable → Str) (p : Payload) : Str :=
  "gen:".data ++ hash (stableOf p)

/-- Python truthiness of an `Optional[str]`: `None` and `""` are falsy. -/
def optFalsy : Option Str → Bool
  | none => true
  | some s => s.isEmpty

def strTruthy (o : Option Str) : Bool := !optFalsy o

/-- `Decimal.to_integral_value(rounding=ROUND_HALF_UP)`: round to nearest,
ties away from zero. -/
def roundHalfUp (q : Rat) : Int :=
  if q < 0 then -(Int.floor ((1 : Rat) / 2 + -q)) else Int.floor (q + (1 : Rat) / 2)

/-- `_slugify` (`ingest.py`, lines 232-235): lower-case, replace each run of
non-`[a-z0-9]` by `-`, strip dashes from the ends - equivalently, join the
kept alphanumeric runs with single dashes. -/
def isSlugChar (c : Char) : Bool := ('a' ≤ c && c ≤ 'z') || ('0' ≤ c && c ≤ '9')

def slugify (s : Str) : Str := joinWith '-' (wordsBy isSlugChar (pyLower (pyStrip s)))

/-- Lines 412-417: fall back to classifying `transaction_type` when the
`form` field itself fails to normalize to something classifiable.  Returns
the resulting `(form_value, tx_type_value)`. -/
def resolveForm (it : Item) : Option Str × Option Str :=
  let fv0 := normalizeFormStr it.form
  if optFalsy fv0 && strTruthy it.transaction_type then
    match it.transaction_type with
    | some t =>
      let maybe := normalizeFormStr t
      if (formPrefixOf maybe).isSome then (maybe, none) else (fv0, it.transaction_type)
    | none => (fv0, it.transaction_type)
  else (fv0, it.transaction_type)

/-- The midpoint substitution of lines 441-443: a lone `amount_usd` fills
both missing bounds. -/
def amountsAfterMidpoint (it : Item) : Option Int × Option Int :=
  if it.amount_usd_low.isNone && it.amount_usd_high.isNone && it.amount_usd.isSome
  then (it.amount_usd, it.amount_usd)
  else (it.amount_usd_low, it.amount_usd_high)

/-- Per-item validation errors of the ingestion loop. -/
inductive IngestErr where
  | missingForm
  | congressAmounts
deriving DecidableEq

/-- The amount derivation of lines 434-457 for a classified item: the final
`(amount_usd_low, amount_usd_high)` pair, or the CONGRESS bounds error. -/
def deriveAmounts (pfx : Str) (it : Item) :
    (Option Int × Option Int) × Option IngestErr :=
  if (pfx = "FORM 3".data || pfx = "FORM 4".data) && it.shares.isSome
      && it.price_usd.isSome then
    match it.shares, it.price_usd with
    | some sh, some pr =>
      ((some (roundHalfUp (pr * (sh : Rat))),
        some (roundHalfUp (pr * (sh : Rat)))), none)
    | _, _ => ((it.amount_usd_low, it.amount_usd_high), none)
  else if pfx = "FORM 3".data || pfx = "FORM 4".data then
    if (amountsAfterMidpoint it).1.isNone && (amountsAfterMidpoint it).2.isSome then
      (((amountsAfterMidpoint it).2, (amountsAfterMidpoint it).2), none)
    else if (amountsAfterMidpoint it).2.isNone && (amountsAfterMidpoint it).1.isSome then
      (((amountsAfterMidpoint it).1, (amountsAfterMidpoint it).1), none)
    else (amountsAfterMidpoint it, none)
  else if pfx = "CONGRESS".data then
    if (amountsAfterMidpoint it).1.isNone || (amountsAfterMidpoint it).2.isNone then
      (amountsAfterMidpoint it, some IngestErr.congressAmounts)
    else (amountsAfterMidpoint it, none)
  else (amountsAfterMidpoint it, none)

/-- `_has_trade_data` (`ingest.py`, lines 185-207): string fields count when
non-blank, all other listed fields count when present. -/
def strPresent : Option Str → Bool
  | none => false
  | some s => !(pyStrip s).isEmpty

def hasTradeData (p : Payload) : Bool :=
  strPresent p.ticker || strPresent p.company_name || strPresent p.person_name ||
  strPresent p.person_slug || strPresent p.transaction_type || strPresent p.form ||
  p.transaction_date.isSome || p.filed_at.isSome ||
  p.amount_usd_low.isSome || p.amount_usd_high.isSome ||
  p.shares.isSome || p.price_usd.isSome || strPresent p.url

/-- Non-null-wins merge of one field (lines 487-507). -/
def mergeField (new old : Option α) : Option α :=
  match new with
  | some v => some v
  | none => old

/-- Merge a payload into an existing row: every non-null payload field
overwrites; `external_id` is not in the merge list. -/
def mergeTrade (t : Trade) (p : Payload) : Trade :=
  { external_id := t.external_id,
    ticker := mergeField p.ticker t.ticker,
    company_name := mergeField p.company_name t.company_name,
    person_name := mergeField p.person_name t.person_name,
    person_slug := mergeField p.person_slug t.person_slug,
    transaction_type := mergeField p.transaction_type t.transaction_type,
    form := mergeField p.form t.form,
    url := mergeField p.url t.url,
    transaction_date := mergeField p.transaction_date t.transaction_date,
    filed_at := mergeField p.filed_at t.filed_at,
    amount_usd_low := mergeField p.amount_usd_low t.amount_usd_low,
    amount_usd_high := mergeField p.amount_usd_high t.amount_usd_high,
    shares := mergeField p.shares t.shares,
    price_usd := mergeField p.price_usd t.price_usd }

/-- A freshly inserted row (lines 510-529). -/
def tradeOfPayload (eid : Str) (p : Payload) : Trade :=
  { external_id := eid, ticker := p.ticker, company_name := p.company_name,
    person_name := p.person_name, person_slug := p.person_slug,
    transaction_type := p.transaction_type, form := p.form, url := p.url,
    transaction_date := p.transaction_date, filed_at := p.filed_at,
    amount_usd_low := p.amount_usd_low, amount_usd_high := p.amount_usd_high,
    shares := p.shares, price_usd := p.price_usd }

/-- `db.scalar(select(Trade).where(Trade.external_id == ...))` over the
modelled table. -/
def findTrade (db : List Trade) (eid : Str) : Option Trade :=
  db.find? (fun t => t.external_id = eid)

/-- Update the row found by `findTrade` in place. -/
def replaceFirst : List Trade → Str → Trade → List Trade
  | [], _, _ => []
  | t :: r, eid, nt =>
    if t.external_id = eid then nt :: r else t :: replaceFirst r eid nt

/-- What happened to one item of a batch. -/
inductive Outcome where
  | err (e : IngestErr)
  | ins
  | upd
  | skip
deriving DecidableEq

/-- The loop body of `ingest_trades` (lines 406-529) for one validated
item: classification, amount derivation, payload normalization and
upsert against the current table state. -/
def processItem (hash : Stable → Str) (db : List Trade) (it : Item) :
    List Trade × Outcome :=
  let ft := resolveForm it
  match formPrefixOf ft.1 with
  | none => (db, .err .missingForm)
  | some pfx =>
    let da := deriveAmounts pfx it
    match da.2 with
    | some e => (db, .err e)
    | none =>
      let p0 : Payload :=
        { external_id := it.external_id, ticker := it.ticker,
          company_name := it.company_name, person_name := it.person_name,
          person_slug := it.person_slug, transaction_type := ft.2,
          form := ft.1, url := it.url,
          transaction_date := it.transaction_date, filed_at := it.filed_at,
          amount_usd_low := da.1.1, amount_usd_high := da.1.2,
          shares := it.shares, price_usd := it.price_usd }
      let eid : Str :=
        if optFalsy p0.external_id then makeExternalId hash p0
        else p0.external_id.getD []
      let p1 := if strTruthy p0.person_name && optFalsy p0.person_slug
                then { p0 with person_slug := some (slugify (p0.person_name.getD [])) }
                else p0
      if !hasTradeData p1 then (db, .skip)
      else
        match findTrade db eid with
        | some t => (replaceFirst db eid (mergeTrade t p1), .upd)
        | none => (db ++ [tradeOfPayload eid p1], .ins)

/-- Batch counters and error list of `ingest_trades`. -/
structure BState where
  db : List Trade
  inserted : Nat
  updated : Nat
  skipped_empty : Nat
  errors : List (Nat × IngestErr)
deriving DecidableEq

def ingestStep (hash : Stable → Str) (i : Nat) (s : BState) (it : Item) : BState :=
  match processItem hash s.db it with
  | (db', Outcome.err e) => { s with db := db', errors := s.errors ++ [(i, e)] }
  | (db', Outcome.ins) => { s with db := db', inserted := s.inserted + 1 }
  | (db', Outcome.upd) => { s with db := db', updated := s.updated + 1 }
  | (db', Outcome.skip) => { s with db := db', skipped_empty := s.skipped_empty + 1 }

def ingestLoop (hash : Stable → Str) : Nat → BState → List Item → BState
  | _, s, [] => s
  | i, s, it :: rest => ingestLoop hash (i + 1) (ingestStep hash i s it) rest

def initBState : BState := ⟨[], 0, 0, 0, []⟩

/-- `ingest_trades` over a batch of already-validated items starting from
an empty table. -/
def ingestTrades (hash : Stable → Str) (items : List Item) : BState :=
  ingestLoop hash 0 initBState items

/-- A concrete digest instantiation for closed evaluations; no claim
depends on the digest contents. -/
def trivialHash : Stable → Str := fun _ => []

/-- Every stored count in the limiter is at most `L` (used by C9). -/
def countsLe (st : RLState) (L : Int) : Prop := ∀ e ∈ st.counters, e.2.2 ≤ L

/-- The state produced by an admitted `hit`: counter bumped, then
opportunistic pruning. -/
def admitState (st : RLState) (k : Str) (t : Rat) : RLState :=
  let ws := windowStartAt st.windowSeconds t
  let st1 := { st with counters := setCounter st.counters k (ws, countOf st.counters k ws + 1) }
  if st1.counters.length > st1.maxKeys && 10 < t - st1.lastPruneAt then pruneRL st1 t else st1

/-- The canonical taxonomy together with its `/A`-amended variants - the
only stored `form` values the C5 claim permits. -/
def canonicalOrAmended : List Str :=
  FORM_PREFIX_ORDER ++ FORM_PREFIX_ORDER.map (fun p => p ++ "/A".data)

/-- The batch counters and table, without the error list. -/
def stateCore (s : BState) : List Trade × Nat × Nat × Nat :=
  (s.db, s.inserted, s.updated, s.skipped_empty)

/-!  ## Claims -/

/-- Establish a concrete rational floor from its two bounding inequalities. -/
theorem floorQ (z : Int) (r : Rat) (h1 : (z : Rat) ≤ r) (h2 : r < z + 1) :
    Int.floor r = z := by
  rw [Int.floor_eq_iff]
  exact ⟨h1, h2⟩

/-- `ratTrunc` of a concrete non-negative value. -/
theorem ratTrunc_nonneg (q : Rat) (z : Int) (h0 : ¬q < 0) (h1 : (z : Rat) ≤ q)
    (h2 : q < z + 1) : ratTrunc q = z := by
  unfold ratTrunc
  rw [if_neg h0, floorQ z q h1 h2]

/-- `ratTrunc` of a concrete negative value. -/
theorem ratTrunc_negval (q : Rat) (z : Int) (h0 : q < 0) (h1 : (z : Rat) ≤ -q)
    (h2 : -q < z + 1) : ratTrunc q = -z := by
  unfold ratTrunc
  rw [if_pos h0, floorQ z (-q) h1 h2]

/-- C1.  The spec's Form 3/4 amount rule demands that the item
`{form:"4", shares:100, price_usd:"10.005"}` be accepted and stored with
`amount_usd_low = amount_usd_high = 1001`.  The code instead rejects the
item: the classifier's raw-string regexes (`r"(?:^|\\b)4\\b"`) demand a
literal backslash, so `normalize_form("4")` falls through to `"4"`,
`form_prefix` returns `None`, and the loop records the per-item error
`Missing or invalid 'form'` without touching the table.  The half-up
arithmetic the rule prescribes would indeed give 1001. -/
theorem C1_bare_form4_rejected :
    ingestTrades trivialHash
        [{ form := "4".data, shares := some 100, price_usd := some (2001 / 200) }] =
      ⟨[], 0, 0, 0, [(0, IngestErr.missingForm)]⟩ ∧
    normalizeFormStr "4".data = some "4".data ∧
    formPrefixOf (some "4".data) = none ∧
    roundHalfUp ((2001 / 200 : Rat) * ((100 : Int) : Rat)) = 1001 := by
  refine ⟨by decide, by decide, by decide, ?_⟩
  unfold roundHalfUp
  rw [if_neg (by norm_num), floorQ 1001 _ (by norm_num) (by norm_num)]

/-- C8 counterexample.  The claim says `normalize_form` returns null for
every non-string input and never raises; but an `int` input is
stringified (`value = str(int(value))`) and classified like a string -
input `4` yields `"4"`, not null - and on the non-finite floats the
uncaught `int(value)` call raises (`ValueError` on NaN, `OverflowError`
on Infinity). -/
theorem C8_cx_int_input_not_null :
    (normalizeForm (PyVal.int 4) = some "4".data ∧
      ¬ normalizeForm (PyVal.int 4) = none) ∧
    normalizeFormFloat PyFloat.nan = NFRes.valueError ∧
    normalizeFormFloat PyFloat.inf = NFRes.overflowError := by
  exact ⟨⟨by decide, by decide⟩, rfl, rfl⟩

/-- C8 (amended).  `normalize_form` returns null for `None`, every
boolean, every non-numeric non-string value, and every empty or
whitespace-only string; `int` and finite `float` inputs are coerced
through `str(int(value))` and classified like strings; and it does not
never-raise: on the non-finite floats NaN and plus/minus Infinity the
uncaught `int(value)` raises `ValueError` resp. `OverflowError`. -/
theorem C8_nonstring_inputs :
    normalizeForm PyVal.none = none ∧
    (∀ b : Bool, normalizeForm (PyVal.bool b) = none) ∧
    normalizeForm PyVal.other = none ∧
    (∀ s : Str, (pyStrip s).isEmpty = true → normalizeForm (PyVal.str s) = none) ∧
    (∀ n : Int, normalizeForm (PyVal.int n) = normalizeFormStr (intToStr n)) ∧
    (∀ q : Rat, normalizeForm (PyVal.float q) = normalizeFormStr (intToStr (ratTrunc q))) ∧
    (∀ q : Rat, normalizeFormFloat (PyFloat.finite q) = NFRes.ok (normalizeForm (PyVal.float q))) ∧
    normalizeFormFloat PyFloat.nan = NFRes.valueError ∧
    normalizeFormFloat PyFloat.inf = NFRes.overflowError ∧
    normalizeFormFloat PyFloat.ninf = NFRes.overflowError := by
  refine ⟨rfl, fun b => rfl, rfl, fun s h => ?_, fun n => rfl, fun q => rfl,
    fun q => rfl, rfl, rfl, rfl⟩
  show (if (pyStrip s).isEmpty = true then none else some (classifyRaw (pyStrip s))) = none
  exact if_pos h

/-- Witness for C8: the whitespace-only string hypothesis discharged at a
concrete blank input. -/
theorem C8_nonstring_inputs_witness :
    (pyStrip "  ".data).isEmpty = true ∧ normalizeForm (PyVal.str "  ".data) = none :=
  ⟨by decide, C8_nonstring_inputs.2.2.2.1 "  ".data (by decide)⟩

/-- C10.  The integer coercer truncates fractional numeric input toward
zero instead of rejecting it: a float `10.9` or the string `"10.9"`
supplied to an integer field coerces to `10` (and `-10.9` to `-10`)
through `_validate_int` with no per-item validation error. -/
theorem C10_int_coercer_truncates :
    parse_int (PyVal.float (109 / 10)) = some 10 ∧
    validate_int (PyVal.float (109 / 10)) = VRes.ok (some 10) ∧
    parse_int (PyVal.str "10.9".data) = some 10 ∧
    validate_int (PyVal.str "10.9".data) = VRes.ok (some 10) ∧
    parse_int (PyVal.float (-(109 / 10))) = some (-10) := by
  have htr : ratTrunc ((109 : Rat) / 10) = 10 :=
    ratTrunc_nonneg _ 10 (by norm_num) (by norm_num) (by norm_num)
  have hq : parseDecStr "10.9".data =
      some ((1 : Rat) * ((digitsVal "10".data : Rat) +
        (digitsVal "9".data : Rat) / (10 : Rat) ^ ("9".data.length))) := rfl
  have hval : (1 : Rat) * ((digitsVal "10".data : Rat) +
      (digitsVal "9".data : Rat) / (10 : Rat) ^ ("9".data.length)) = 109 / 10 := by
    have d1 : digitsVal "10".data = 10 := by decide
    have d2 : digitsVal "9".data = 9 := by decide
    have d3 : ("9".data.length) = 1 := by decide
    rw [d1, d2, d3]
    norm_num
  have hstr : parse_int (PyVal.str "10.9".data) = some 10 := by
    show (match parseDecStr "10.9".data with
          | some q => some (ratTrunc q)
          | none => none) = some 10
    rw [hq, hval]
    show some (ratTrunc ((109 : Rat) / 10)) = some 10
    rw [htr]
  refine ⟨?_, ?_, hstr, ?_, ?_⟩
  · show some (ratTrunc ((109 : Rat) / 10)) = some 10
    rw [htr]
  · show (match parse_int (PyVal.float (109 / 10)) with
          | some n => VRes.ok (some n)
          | none => VRes.invalid) = VRes.ok (some 10)
    show (match some (ratTrunc ((109 : Rat) / 10)) with
          | some n => VRes.ok (some n)
          | none => VRes.invalid) = VRes.ok (some 10)
    rw [htr]
  · show (match parse_int (PyVal.str "10.9".data) with
          | some n => VRes.ok (some n)
          | none => VRes.invalid) = VRes.ok (some 10)
    rw [hstr]
  · show some (ratTrunc (-((109 : Rat) / 10))) = some (-10)
    rw [ratTrunc_negval _ 10 (by norm_num) (by norm_num) (by norm_num)]

theorem setCounter_mem {l : List (Str × Int × Int)} {key : Str} {v : Int × Int}
    {e : Str × Int × Int} (h : e ∈ setCounter l key v) : e ∈ l ∨ e = (key, v) := by
  induction l with
  | nil =>
    simp only [setCounter] at h
    simp only [List.mem_singleton] at h
    exact Or.inr h
  | cons a r ih =>
    simp only [setCounter] at h
    by_cases ha : a.1 = key
    · rw [if_pos ha] at h
      rcases List.mem_cons.mp h with h1 | h1
      · exact Or.inr h1
      · exact Or.inl (List.mem_cons_of_mem a h1)
    · rw [if_neg ha] at h
      rcases List.mem_cons.mp h with h1 | h1
      · exact Or.inl (h1 ▸ List.mem_cons_self a r)
      · rcases ih h1 with h2 | h2
        · exact Or.inl (List.mem_cons_of_mem a h2)
        · exact Or.inr h2

/-- Explicit branch form of `hit` (definitional unfolding). -/
theorem hit_eq (st : RLState) (k : Str) (L : Int) (t : Rat) :
    hit st k L t =
      if L ≤ 0 then (some st.windowSeconds, st)
      else if L ≤ countOf st.counters k (windowStartAt st.windowSeconds t) then
        (some (max (1 : Int)
            (ratTrunc ((windowStartAt st.windowSeconds t : Rat) +
              (st.windowSeconds : Rat) - t))), st)
      else (none, admitState st k t) := rfl

theorem admitState_mem {st : RLState} {k : Str} {t : Rat} {e : Str × Int × Int}
    (he : e ∈ (admitState st k t).counters) :
    e ∈ st.counters ∨
      e = (k, windowStartAt st.windowSeconds t,
            countOf st.counters k (windowStartAt st.windowSeconds t) + 1) := by
  simp only [admitState] at he
  split at he
  · simp only [pruneRL, List.mem_filter] at he
    exact setCounter_mem he.1
  · exact setCounter_mem he

theorem hit_countsLe {st : RLState} {k : Str} {L : Int} {t : Rat}
    (hinv : countsLe st L) : countsLe (hit st k L t).2 L := by
  rw [hit_eq]
  split_ifs with h0 hb
  · exact hinv
  · exact hinv
  · intro e he
    rcases admitState_mem he with h1 | h1
    · exact hinv e h1
    · rw [h1]; simpa using hb

theorem runHits_countsLe {L : Int} {hits : List (Str × Rat)} {st : RLState}
    (hinv : countsLe st L) : countsLe (runHits L st hits) L := by
  induction hits generalizing st with
  | nil => exact hinv
  | cons p r ih => exact ih (hit_countsLe hinv)

/-- C9.  A blocked `hit` (one returning a retry-after) leaves the limiter
state - counters and prune clock - completely unchanged, and consequently,
under a fixed positive per-key limit `L`, no stored count ever exceeds `L`
when starting from a fresh limiter. -/
theorem C9_blocked_hit_consumes_nothing :
    (∀ (st : RLState) (k : Str) (L : Int) (t : Rat) (r : Int) (st2 : RLState),
        hit st k L t = (some r, st2) → st2 = st) ∧
    (∀ (w L : Int) (hits : List (Str × Rat)), 0 < L →
        countsLe (runHits L (mkLimiter w) hits) L) := by
  constructor
  · intro st k L t r st2 h
    rw [hit_eq] at h
    split_ifs at h
    · exact ((Prod.mk.injEq _ _ _ _).mp h).2.symm
    · exact ((Prod.mk.injEq _ _ _ _).mp h).2.symm
    · exact absurd ((Prod.mk.injEq _ _ _ _).mp h).1 (by simp)
  · intro w L hits hL
    refine runHits_countsLe ?_
    intro e he
    simp only [mkLimiter, List.not_mem_nil] at he

/-- The window start never exceeds the time stamp. -/
theorem windowStartAt_le (t : Rat) : ((windowStartAt 60 t : Int) : Rat) ≤ t := by
  unfold windowStartAt
  have h : ((Int.floor (t / ((60 : Int) : Rat)) : Int) : Rat) ≤ t / ((60 : Int) : Rat) :=
    Int.floor_le _
  have h2 : ((Int.floor (t / ((60 : Int) : Rat)) : Int) : Rat) * 60 ≤
      (t / ((60 : Int) : Rat)) * 60 := mul_le_mul_of_nonneg_right h (by norm_num)
  have h3 : (t / ((60 : Int) : Rat)) * 60 = t := by
    push_cast
    field_simp
  push_cast
  push_cast at h2 h3
  linarith

/-- Truncation respects the 60-second bound. -/
theorem ratTrunc_le_60 {q : Rat} (h : q ≤ 60) : ratTrunc q ≤ 60 := by
  unfold ratTrunc
  split_ifs with h0
  · have h1 : (0 : Int) ≤ Int.floor (-q) := Int.floor_nonneg.mpr (by linarith)
    omega
  · have h1 : ((Int.floor q : Int) : Rat) ≤ q := Int.floor_le q
    have h2 : ((Int.floor q : Int) : Rat) ≤ ((60 : Int) : Rat) := by
      push_cast
      push_cast at h1
      linarith
    exact_mod_cast h2

/-- First hit of a fresh key: admitted, counter created at the current
window with count 1. -/
theorem hit_insert_fresh (k : Str) (L : Int) (t lp : Rat) (hL : ¬ L ≤ 0) :
    hit ⟨60, 50000, [], lp⟩ k L t =
      (none, ⟨60, 50000, [(k, windowStartAt 60 t, 1)], lp⟩) := by
  rw [hit_eq, if_neg hL]
  have hc : countOf ([] : List (Str × Int × Int)) k (windowStartAt 60 t) = 0 := rfl
  rw [hc, if_neg (by omega : ¬ L ≤ (0 : Int))]
  simp only [admitState, setCounter, countOf, List.find?_nil]
  norm_num

/-- A same-window hit below the limit: admitted, counter bumped. -/
theorem hit_same_window (k : Str) (L c : Int) (t lp : Rat) (ws : Int)
    (hws : windowStartAt 60 t = ws) (hL : ¬ L ≤ 0) (hc : ¬ L ≤ c) :
    hit ⟨60, 50000, [(k, ws, c)], lp⟩ k L t =
      (none, ⟨60, 50000, [(k, ws, c + 1)], lp⟩) := by
  have hcount2 : countOf [(k, ws, c)] k ws = c := by
    unfold countOf
    rw [List.find?_cons_of_pos _ (by simp)]
    simp
  have hcount : countOf [(k, ws, c)] k (windowStartAt 60 t) = c := by rw [hws]; exact hcount2
  rw [hit_eq, if_neg hL, hcount, if_neg hc]
  simp only [admitState, hws, hcount2, setCounter, if_pos rfl]
  norm_num

/-- A same-window hit at the limit: blocked, state untouched, retry-after
clamped to at least one second. -/
theorem hit_blocked (k : Str) (L c : Int) (t lp : Rat) (ws : Int)
    (hws : windowStartAt 60 t = ws) (hL : ¬ L ≤ 0) (hc : L ≤ c) :
    hit ⟨60, 50000, [(k, ws, c)], lp⟩ k L t =
      (some (max 1 (ratTrunc ((ws : Rat) + ((60 : Int) : Rat) - t))),
        ⟨60, 50000, [(k, ws, c)], lp⟩) := by
  have hcount : countOf [(k, ws, c)] k (windowStartAt 60 t) = c := by
    rw [hws]
    simp [countOf, List.find?]
  rw [hit_eq, if_neg hL, hcount, if_pos hc, hws]

/-- A hit in a different window: the stale counter is ignored (reset) and
overwritten with count 1 for the new window. -/
theorem hit_new_window (k : Str) (L c : Int) (t lp : Rat) (ws ws2 : Int)
    (hws : windowStartAt 60 t = ws2) (hne : ws2 ≠ ws) (hL : ¬ L ≤ 0) :
    hit ⟨60, 50000, [(k, ws, c)], lp⟩ k L t =
      (none, ⟨60, 50000, [(k, ws2, 1)], lp⟩) := by
  have hcount2 : countOf [(k, ws, c)] k ws2 = 0 := by
    unfold countOf
    rw [List.find?_cons_of_pos _ (by simp)]
    simp only
    rw [if_neg (fun h : ws = ws2 => hne h.symm)]
  have hcount : countOf [(k, ws, c)] k (windowStartAt 60 t) = 0 := by rw [hws]; exact hcount2
  rw [hit_eq, if_neg hL, hcount, if_neg (by omega : ¬ L ≤ (0 : Int))]
  simp only [admitState, hws, hcount2, setCounter, if_pos rfl]
  norm_num

/-- C2.  Fixed-window policy `ip_requests = 3`, `window_seconds = 60`: on a
fresh limiter the first three hits on one key inside one window are
admitted, the fourth is blocked with `retry_after_seconds` between 1
and 60 and consumes nothing, and a hit in the next window is admitted
again with the counter reset to 1.  A limit of 0 blocks every hit for a
full window. -/
theorem C2_fixed_window_rate_limit (k : Str) (t1 t2 t3 t4 t5 : Rat)
    (hw2 : windowStartAt 60 t2 = windowStartAt 60 t1)
    (hw3 : windowStartAt 60 t3 = windowStartAt 60 t1)
    (hw4 : windowStartAt 60 t4 = windowStartAt 60 t1)
    (hw5 : windowStartAt 60 t5 = windowStartAt 60 t1 + 60) :
    (hit (mkLimiter 60) k 3 t1).1 = none ∧
    (hit (hit (mkLimiter 60) k 3 t1).2 k 3 t2).1 = none ∧
    (hit (hit (hit (mkLimiter 60) k 3 t1).2 k 3 t2).2 k 3 t3).1 = none ∧
    (∃ ra, (hit (hit (hit (hit (mkLimiter 60) k 3 t1).2 k 3 t2).2 k 3 t3).2 k 3 t4).1
        = some ra ∧ 1 ≤ ra ∧ ra ≤ 60) ∧
    (hit (hit (hit (hit (mkLimiter 60) k 3 t1).2 k 3 t2).2 k 3 t3).2 k 3 t4).2
      = (hit (hit (hit (mkLimiter 60) k 3 t1).2 k 3 t2).2 k 3 t3).2 ∧
    (hit (hit (hit (hit (hit (mkLimiter 60) k 3 t1).2 k 3 t2).2 k 3 t3).2 k 3 t4).2
        k 3 t5).1 = none ∧
    (hit (hit (hit (hit (hit (mkLimiter 60) k 3 t1).2 k 3 t2).2 k 3 t3).2 k 3 t4).2
        k 3 t5).2.counters = [(k, windowStartAt 60 t1 + 60, 1)] ∧
    (∀ (st : RLState) (k2 : Str) (t : Rat), hit st k2 0 t = (some st.windowSeconds, st)) := by
  have hL : ¬ (3 : Int) ≤ 0 := by omega
  have e1 : hit (mkLimiter 60) k 3 t1 =
      (none, ⟨60, 50000, [(k, windowStartAt 60 t1, 1)], 0⟩) := hit_insert_fresh k 3 t1 0 hL
  have e2 : hit (⟨60, 50000, [(k, windowStartAt 60 t1, 1)], 0⟩ : RLState) k 3 t2 =
      (none, ⟨60, 50000, [(k, windowStartAt 60 t1, 2)], 0⟩) := by
    have := hit_same_window k 3 1 t2 0 (windowStartAt 60 t1) hw2 hL (by omega)
    simpa using this
  have e3 : hit (⟨60, 50000, [(k, windowStartAt 60 t1, 2)], 0⟩ : RLState) k 3 t3 =
      (none, ⟨60, 50000, [(k, windowStartAt 60 t1, 3)], 0⟩) := by
    have := hit_same_window k 3 2 t3 0 (windowStartAt 60 t1) hw3 hL (by omega)
    simpa using this
  have e4 : hit (⟨60, 50000, [(k, windowStartAt 60 t1, 3)], 0⟩ : RLState) k 3 t4 =
      (some (max 1 (ratTrunc ((windowStartAt 60 t1 : Rat) + ((60 : Int) : Rat) - t4))),
        ⟨60, 50000, [(k, windowStartAt 60 t1, 3)], 0⟩) :=
    hit_blocked k 3 3 t4 0 (windowStartAt 60 t1) hw4 hL (by omega)
  have e5 : hit (⟨60, 50000, [(k, windowStartAt 60 t1, 3)], 0⟩ : RLState) k 3 t5 =
      (none, ⟨60, 50000, [(k, windowStartAt 60 t1 + 60, 1)], 0⟩) :=
    hit_new_window k 3 3 t5 0 (windowStartAt 60 t1) (windowStartAt 60 t1 + 60) hw5
      (by omega) hL
  have hle : ((windowStartAt 60 t1 : Int) : Rat) ≤ t4 := by
    rw [← hw4]
    exact windowStartAt_le t4
  have hrb : ratTrunc ((windowStartAt 60 t1 : Rat) + ((60 : Int) : Rat) - t4) ≤ 60 := by
    apply ratTrunc_le_60
    push_cast
    push_cast at hle
    linarith
  refine ⟨?_, ?_, ?_,
      ⟨max 1 (ratTrunc ((windowStartAt 60 t1 : Rat) + ((60 : Int) : Rat) - t4)), ?_,
        le_max_left 1 _, max_le (by omega) hrb⟩,
      ?_, ?_, ?_, fun st k2 t => rfl⟩ <;>
    simp [e1, e2, e3, e4, e5]

/-- Witness for C2: the window hypotheses hold at `t = 0, 1, 2, 3` with the
fifth hit at `t = 60`. -/
theorem C2_fixed_window_rate_limit_witness :
    (windowStartAt 60 1 = windowStartAt 60 0 ∧
     windowStartAt 60 2 = windowStartAt 60 0 ∧
     windowStartAt 60 3 = windowStartAt 60 0 ∧
     windowStartAt 60 60 = windowStartAt 60 0 + 60) ∧
    ((hit (mkLimiter 60) "k".data 3 0).1 = none ∧
      (∃ ra, (hit (hit (hit (hit (mkLimiter 60) "k".data 3 0).2 "k".data 3 1).2
          "k".data 3 2).2 "k".data 3 3).1 = some ra ∧ 1 ≤ ra ∧ ra ≤ 60)) := by
  have hz : ∀ t : Rat, (0 : Rat) ≤ t → t < 60 → windowStartAt 60 t = 0 := by
    intro t h1 h2
    unfold windowStartAt
    rw [floorQ 0 _ (by positivity) (by push_cast; rw [div_lt_iff₀ (by norm_num)]; linarith)]
    ring
  have h60 : windowStartAt 60 60 = 60 := by
    unfold windowStartAt
    rw [floorQ 1 _ (by push_cast; norm_num) (by push_cast; norm_num)]
    ring
  have h0 := hz 0 (by norm_num) (by norm_num)
  have h1 := hz 1 (by norm_num) (by norm_num)
  have h2 := hz 2 (by norm_num) (by norm_num)
  have h3 := hz 3 (by norm_num) (by norm_num)
  have tot := C2_fixed_window_rate_limit "k".data 0 1 2 3 60
    (by rw [h1, h0]) (by rw [h2, h0]) (by rw [h3, h0]) (by rw [h60, h0]; norm_num)
  exact ⟨⟨by rw [h1, h0], by rw [h2, h0], by rw [h3, h0], by rw [h60, h0]; norm_num⟩,
    tot.1, tot.2.2.2.1⟩

/-- Witness for C9: a concrete blocked hit (limit 0) returns the state
unchanged, and a fixed limit of 3 bounds all stored counts by 3. -/
theorem C9_blocked_hit_consumes_nothing_witness :
    (hit (mkLimiter 60) "k".data 0 5 = (some 60, mkLimiter 60) ∧
      mkLimiter 60 = mkLimiter 60) ∧
    (0 < (3 : Int) ∧ countsLe (runHits 3 (mkLimiter 60) [("k".data, 5)]) 3) := by
  have h : hit (mkLimiter 60) "k".data 0 5 = (some 60, mkLimiter 60) := rfl
  exact ⟨⟨h, by rw [C9_blocked_hit_consumes_nothing.1 _ _ _ _ _ _ h]⟩,
    ⟨by norm_num, C9_blocked_hit_consumes_nothing.2 60 3 [("k".data, 5)] (by norm_num)⟩⟩

/-!  ### Ingestion invariant claims -/

/-- `form_prefix` only ever returns members of the canonical taxonomy. -/
theorem formPrefixOf_mem {of : Option Str} {p : Str}
    (h : formPrefixOf of = some p) : p ∈ FORM_PREFIX_ORDER := by
  match of with
  | none => cases h
  | some f =>
    simp only [formPrefixOf] at h
    split_ifs at h
    split at h
    · next p' hfind =>
      cases h
      exact List.mem_of_find?_eq_some hfind
    · split at h
      · next pr hfind =>
        cases h
        have hall : ∀ x ∈ FORM_FALLBACKS, x.2 ∈ FORM_PREFIX_ORDER := by decide
        exact hall pr (List.mem_of_find?_eq_some hfind)
      · cases h

/-- A classifiable form string is not blank: `form_prefix` succeeds only
when some non-empty canonical prefix heads the stripped upper-cased text. -/
theorem formPrefixOf_strip_ne {f : Str} {p : Str}
    (h : formPrefixOf (some f) = some p) : (pyStrip f).isEmpty = false := by
  have key : ∀ pre : Str, pre ≠ [] →
      pre.isPrefixOf (pyUpper (pyStrip f)) = true → (pyStrip f).isEmpty = false := by
    intro pre hpre hpref
    cases hs : pyStrip f with
    | nil =>
      rw [hs] at hpref
      cases pre with
      | nil => exact absurd rfl hpre
      | cons a b => simp [pyUpper, List.isPrefixOf] at hpref
    | cons a b => rfl
  simp only [formPrefixOf] at h
  split_ifs at h
  split at h
  · next p' hfind =>
    have hp := List.find?_some hfind
    have hmem := List.mem_of_find?_eq_some hfind
    have hall : ∀ x ∈ FORM_PREFIX_ORDER, x ≠ ([] : Str) := by decide
    exact key p' (hall p' hmem) (by simpa using hp)
  · split at h
    · next pr hfind =>
      have hp := List.find?_some hfind
      have hmem := List.mem_of_find?_eq_some hfind
      have hall : ∀ x ∈ FORM_FALLBACKS, x.1 ≠ ([] : Str) := by decide
      exact key pr.1 (hall pr hmem) (by simpa using hp)
    · cases h

theorem replaceFirst_mem {db : List Trade} {eid : Str} {nt t : Trade}
    (h : t ∈ replaceFirst db eid nt) : t ∈ db ∨ t = nt := by
  induction db with
  | nil => simp [replaceFirst] at h
  | cons a r ih =>
    simp only [replaceFirst] at h
    split_ifs at h with ha
    · rcases List.mem_cons.mp h with h1 | h1
      · exact Or.inr h1
      · exact Or.inl (List.mem_cons_of_mem a h1)
    · rcases List.mem_cons.mp h with h1 | h1
      · exact Or.inl (h1 ▸ List.mem_cons_self a r)
      · rcases ih h1 with h2 | h2
        · exact Or.inl (List.mem_cons_of_mem a h2)
        · exact Or.inr h2

/-- C5 counterexample.  The pass-through branch of `normalize_form`
("inputs prefixed with `form `/`schedule ` pass through upper-cased") lets
arbitrary strings survive classification: `{form:"form 4x bananas"}`
classifies (its prefix is FORM 4) and is persisted with the stored form
`"FORM 4X BANANAS"`, which is not a canonical taxonomy member or an
`/A`-amended one. -/
theorem C5_cx_noncanonical_form_stored :
    (ingestTrades trivialHash
        [{ form := "form 4x bananas".data, external_id := some "e1".data }]).db.map
        (fun t => t.form) = [some "FORM 4X BANANAS".data] ∧
    formPrefixOf (some "FORM 4X BANANAS".data) = some "FORM 4".data ∧
    ¬ "FORM 4X BANANAS".data ∈ canonicalOrAmended := by
  refine ⟨by decide, by decide, by decide⟩

/-- C5 (amended).  Every Trade row the ingestion upsert produces (inserted
or merged) that was not already in the table carries a form value that
`form_prefix` resolves to a canonical taxonomy member - but the stored
string itself may be an arbitrary classifiable pass-through, not
necessarily a taxonomy member. -/
theorem C5_persisted_forms_classifiable :
    ∀ (hash : Stable → Str) (db : List Trade) (it : Item) (db' : List Trade)
      (o : Outcome), processItem hash db it = (db', o) →
      ∀ t ∈ db', t ∈ db ∨
        ∃ p, formPrefixOf t.form = some p ∧ p ∈ FORM_PREFIX_ORDER := by
  intro hash db it db' o h t ht
  simp only [processItem] at h
  split at h
  · cases h
    exact Or.inl ht
  · next pfx hpfx =>
    split at h
    · cases h
      exact Or.inl ht
    · have hform : ∃ f, (resolveForm it).1 = some f := by
        cases hf : (resolveForm it).1 with
        | none => rw [hf] at hpfx; cases hpfx
        | some f => exact ⟨f, rfl⟩
      rcases hform with ⟨f, hf⟩
      split_ifs at h <;>
        first
          | (cases h; exact Or.inl ht)
          | (split at h
             · next t0 hfind =>
               cases h
               rcases replaceFirst_mem ht with h1 | h1
               · exact Or.inl h1
               · refine Or.inr ⟨pfx, ?_, formPrefixOf_mem hpfx⟩
                 rw [h1]
                 show formPrefixOf (mergeField (resolveForm it).1 t0.form) = some pfx
                 rw [hf]
                 show formPrefixOf (some f) = some pfx
                 rw [← hf]
                 exact hpfx
             · cases h
               rcases List.mem_append.mp ht with h1 | h1
               · exact Or.inl h1
               · refine Or.inr ⟨pfx, ?_, formPrefixOf_mem hpfx⟩
                 rcases List.mem_singleton.mp h1 with rfl
                 show formPrefixOf (resolveForm it).1 = some pfx
                 exact hpfx)

/-- Witness for C5 (amended): a concrete insert whose single produced row
resolves to FORM 4. -/
theorem C5_persisted_forms_classifiable_witness :
    processItem trivialHash []
        { form := "form 4x bananas".data, external_id := some "e1".data } =
      ((ingestTrades trivialHash
          [{ form := "form 4x bananas".data, external_id := some "e1".data }]).db,
        Outcome.ins) ∧
    ∀ t ∈ (ingestTrades trivialHash
        [{ form := "form 4x bananas".data, external_id := some "e1".data }]).db,
      t ∈ ([] : List Trade) ∨
        ∃ p, formPrefixOf t.form = some p ∧ p ∈ FORM_PREFIX_ORDER := by
  constructor
  · decide
  · exact C5_persisted_forms_classifiable trivialHash []
      { form := "form 4x bananas".data, external_id := some "e1".data }
      (ingestTrades trivialHash
        [{ form := "form 4x bananas".data, external_id := some "e1".data }]).db
      Outcome.ins (by decide)

/-- A CONGRESS-classified item with a bound still missing after the
midpoint substitution is rejected without touching the table. -/
theorem processItem_congress (hash : Stable → Str) (db : List Trade) (it : Item)
    (hpfx : formPrefixOf (resolveForm it).1 = some "CONGRESS".data)
    (hmiss : (amountsAfterMidpoint it).1 = none ∨ (amountsAfterMidpoint it).2 = none) :
    processItem hash db it = (db, .err .congressAmounts) := by
  have h1 : ¬ (((decide ("CONGRESS".data = "FORM 3".data) ||
      decide ("CONGRESS".data = "FORM 4".data)) && it.shares.isSome
      && it.price_usd.isSome) = true) := by
    simp only [Bool.and_eq_true, Bool.or_eq_true, decide_eq_true_eq]
    rintro ⟨⟨hc | hc, _⟩, _⟩ <;> exact absurd hc (by decide)
  have h2 : ¬ ((decide ("CONGRESS".data = "FORM 3".data) ||
      decide ("CONGRESS".data = "FORM 4".data)) = true) := by decide
  have h4 : ((amountsAfterMidpoint it).1.isNone ||
      (amountsAfterMidpoint it).2.isNone) = true := by
    rcases hmiss with hm | hm <;> rw [hm] <;> simp
  have hda : deriveAmounts "CONGRESS".data it =
      (amountsAfterMidpoint it, some IngestErr.congressAmounts) := by
    unfold deriveAmounts
    rw [if_neg h1, if_neg h2, if_pos rfl, if_pos h4]
  simp only [processItem, hpfx, hda]

/-- C3 counterexample.  An item whose only populated business field is
`form` is never counted as `skipped_empty`: the claim's own example
`{form:"4"}` is rejected with a per-item error (its form does not
classify), and a classifiable form-only item such as `{form:"form 4"}` is
inserted as a row - in both cases `skipped_empty` stays 0 and the claimed
`skipped_empty += 1, no row` behaviour does not occur. -/
theorem C3_cx_form_only_not_skipped :
    ingestTrades trivialHash [{ form := "4".data }] =
      ⟨[], 0, 0, 0, [(0, IngestErr.missingForm)]⟩ ∧
    (ingestTrades trivialHash
        [{ form := "form 4".data, external_id := some "e1".data }]).skipped_empty = 0 ∧
    (ingestTrades trivialHash
        [{ form := "form 4".data, external_id := some "e1".data }]).inserted = 1 ∧
    (ingestTrades trivialHash
        [{ form := "form 4".data, external_id := some "e1".data }]).db.length = 1 := by
  refine ⟨by decide, by decide, by decide, by decide⟩

/-- C3 (amended).  For every ingested item whose business fields other
than `form` are all absent, `skipped_empty` is never incremented: `form`
itself counts as trade data in `_has_trade_data`.  The item's fate is the
three-way dichotomy on classification: when classification fails it is
rejected with the missing-form per-item error; when it classifies as
CONGRESS it is rejected with the congress-amounts per-item error (both
bounds being absent); with any other classified prefix it is persisted,
inserted as or merged into a Trade row. -/
theorem C3_form_only_never_skipped :
    ∀ (hash : Stable → Str) (db : List Trade) (it : Item),
      it.ticker = none → it.company_name = none → it.person_name = none →
      it.person_slug = none → it.transaction_type = none →
      it.transaction_date = none → it.filed_at = none →
      it.amount_usd_low = none → it.amount_usd_high = none →
      it.amount_usd = none → it.shares = none → it.price_usd = none → it.url = none →
      (processItem hash db it).2 ≠ Outcome.skip ∧
      (formPrefixOf (normalizeFormStr it.form) = none →
        processItem hash db it = (db, .err .missingForm)) ∧
      (formPrefixOf (normalizeFormStr it.form) = some "CONGRESS".data →
        processItem hash db it = (db, .err .congressAmounts)) ∧
      (∀ pfx, formPrefixOf (normalizeFormStr it.form) = some pfx →
        pfx ≠ "CONGRESS".data →
        (processItem hash db it).2 = Outcome.ins ∨
          (processItem hash db it).2 = Outcome.upd) := by
  intro hash db it h1 h2 h3 h4 h5 h6 h7 h8 h9 h10 h11 h12 h13
  have hres : resolveForm it = (normalizeFormStr it.form, none) := by
    unfold resolveForm
    rw [h5]
    simp [strTruthy, optFalsy]
  have hmid : amountsAfterMidpoint it = (none, none) := by
    unfold amountsAfterMidpoint
    rw [h8, h9, h10]
    rfl
  have part2 : formPrefixOf (normalizeFormStr it.form) = none →
      processItem hash db it = (db, .err .missingForm) := by
    intro hpfx
    have hp : formPrefixOf (resolveForm it).1 = none := by rw [hres]; exact hpfx
    simp [processItem, hp]
  have part3 : formPrefixOf (normalizeFormStr it.form) = some "CONGRESS".data →
      processItem hash db it = (db, .err .congressAmounts) := by
    intro hpfx
    exact processItem_congress hash db it (by rw [hres]; exact hpfx)
      (Or.inl (by rw [hmid]))
  have part4 : ∀ pfx, formPrefixOf (normalizeFormStr it.form) = some pfx →
      pfx ≠ "CONGRESS".data →
      (processItem hash db it).2 = Outcome.ins ∨
        (processItem hash db it).2 = Outcome.upd := by
    intro pfx hpfx hne
    have hp : formPrefixOf (resolveForm it).1 = some pfx := by
      rw [hres]; exact hpfx
    obtain ⟨f, hf⟩ : ∃ f, (resolveForm it).1 = some f := by
      cases hfc : (resolveForm it).1 with
      | none => rw [hfc] at hp; cases hp
      | some f => exact ⟨f, rfl⟩
    have hsp : strPresent (resolveForm it).1 = true := by
      rw [hf]
      simp only [strPresent]
      rw [formPrefixOf_strip_ne (hf ▸ hp)]
      rfl
    have hderr : deriveAmounts pfx it = ((none, none), none) := by
      unfold deriveAmounts
      rw [h11, hmid]
      simp [hne]
    simp only [processItem, hp, hderr]
    rw [h3]
    simp only [strTruthy, optFalsy, Bool.not_true, Bool.false_and, if_neg,
      Bool.false_eq_true, not_false_eq_true]
    have hht : hasTradeData
        { external_id := it.external_id, ticker := it.ticker,
          company_name := it.company_name, person_name := none,
          person_slug := it.person_slug, transaction_type := (resolveForm it).2,
          form := (resolveForm it).1, url := it.url,
          transaction_date := it.transaction_date, filed_at := it.filed_at,
          amount_usd_low := none, amount_usd_high := none,
          shares := it.shares, price_usd := it.price_usd } = true := by
      simp [hasTradeData, hsp]
    rw [hht]
    simp only [Bool.not_true, Bool.false_eq_true, not_false_eq_true, if_neg]
    split <;> simp
  refine ⟨?_, part2, part3, part4⟩
  cases hpc : formPrefixOf (normalizeFormStr it.form) with
  | none => rw [part2 hpc]; simp
  | some pfx =>
    by_cases hc : pfx = "CONGRESS".data
    · rw [part3 (hc ▸ hpc)]; simp
    · rcases part4 pfx hpc hc with h | h <;> rw [h] <;> simp

/-- Witness for C3 (amended): applied at the concrete form-only item
`{form:"form 4"}` (all hypotheses hold by evaluation). -/
theorem C3_form_only_never_skipped_witness :
    (processItem trivialHash [] { form := "form 4".data }).2 ≠ Outcome.skip ∧
      (formPrefixOf (normalizeFormStr "form 4".data) = none →
        processItem trivialHash [] { form := "form 4".data } =
          ([], .err .missingForm)) ∧
      (formPrefixOf (normalizeFormStr "form 4".data) = some "CONGRESS".data →
        processItem trivialHash [] { form := "form 4".data } =
          ([], .err .congressAmounts)) ∧
      (∀ pfx, formPrefixOf (normalizeFormStr "form 4".data) = some pfx →
        pfx ≠ "CONGRESS".data →
        (processItem trivialHash [] { form := "form 4".data }).2 = Outcome.ins ∨
          (processItem trivialHash [] { form := "form 4".data }).2 = Outcome.upd) :=
  C3_form_only_never_skipped trivialHash [] { form := "form 4".data }
    rfl rfl rfl rfl rfl rfl rfl rfl rfl rfl rfl rfl rfl

/-- C4 counterexample.  The ingestion performs no ordering validation on
producer-supplied amount bounds: a CONGRESS item carrying
`amount_usd_low = 500`, `amount_usd_high = 100` is inserted as-is, so the
produced row violates `amount_usd_low <= amount_usd_high` with both
present.  The merge path violates it too: an 8-K row inserted with
bounds `(100, 100)` and then updated by a second item of the same
`external_id` carrying only `amount_usd_high = 50` ends up as
`(100, 50)`, since the non-null-wins merge overwrites one bound in
isolation. -/
theorem C4_cx_unordered_bounds_stored :
    ((ingestTrades trivialHash
        [{ form := "congress".data, external_id := some "e1".data,
           amount_usd_low := some 500, amount_usd_high := some 100 }]).db.map
        (fun t => (t.amount_usd_low, t.amount_usd_high)) =
      [(some 500, some 100)] ∧
    ¬ (500 : Int) ≤ 100) ∧
    ((ingestTrades trivialHash
        [{ form := "form 8-k".data, external_id := some "e1".data,
           amount_usd_low := some 100, amount_usd_high := some 100 },
         { form := "form 8-k".data, external_id := some "e1".data,
           amount_usd_high := some 50 }]).db.map
        (fun t => (t.amount_usd_low, t.amount_usd_high)) =
      [(some 100, some 50)] ∧
    (ingestTrades trivialHash
        [{ form := "form 8-k".data, external_id := some "e1".data,
           amount_usd_low := some 100, amount_usd_high := some 100 },
         { form := "form 8-k".data, external_id := some "e1".data,
           amount_usd_high := some 50 }]).updated = 1 ∧
    ¬ (100 : Int) ≤ 50) := by
  refine ⟨⟨by decide, by decide⟩, by decide, by decide, by decide⟩

/-- The amount deriver preserves bound ordering: every derivation path
either equates the two bounds or passes the producer pair through. -/
theorem deriveAmounts_ordered (pfx : Str) (it : Item)
    (hord : ∀ a b : Int, it.amount_usd_low = some a → it.amount_usd_high = some b →
      a ≤ b) :
    ∀ a b : Int, (deriveAmounts pfx it).1.1 = some a →
      (deriveAmounts pfx it).1.2 = some b → a ≤ b := by
  intro a b ha hb
  have hmid : ∀ x y : Int, (amountsAfterMidpoint it).1 = some x →
      (amountsAfterMidpoint it).2 = some y → x ≤ y := by
    intro x y hx hy
    unfold amountsAfterMidpoint at hx hy
    split_ifs at hx hy with hc
    · simp only at hx hy
      rw [hx] at hy
      injection hy with hxy
      omega
    · simp only at hx hy
      exact hord x y hx hy
  unfold deriveAmounts at ha hb
  split_ifs at ha hb with hg
  · simp only [Bool.and_eq_true] at hg
    obtain ⟨⟨_, hsq⟩, hpq⟩ := hg
    obtain ⟨sh, hsh⟩ := Option.isSome_iff_exists.mp hsq
    obtain ⟨pr, hpr⟩ := Option.isSome_iff_exists.mp hpq
    rw [hsh, hpr] at ha hb
    simp only at ha hb
    injection ha with ha2
    injection hb with hb2
    omega
  all_goals simp only at ha hb
  all_goals first
    | (rw [ha] at hb; injection hb with hab; omega)
    | exact hmid a b ha hb

/-- C4 (amended).  A freshly inserted Trade row satisfies
`amount_usd_low <= amount_usd_high` (both present) whenever the
producer-supplied pair did: every derivation rule yields equal bounds and
a supplied pair is stored unvalidated.  The invariant is not enforced in
general - an unordered supplied pair (see the counterexample) or a merge
overwriting one bound can violate it. -/
theorem C4_insert_ordered_of_supplied_ordered :
    ∀ (hash : Stable → Str) (db : List Trade) (it : Item) (db' : List Trade),
      processItem hash db it = (db', Outcome.ins) →
      (∀ a b : Int, it.amount_usd_low = some a → it.amount_usd_high = some b →
        a ≤ b) →
      ∃ t, db' = db ++ [t] ∧
        ∀ a b : Int, t.amount_usd_low = some a → t.amount_usd_high = some b →
          a ≤ b := by
  intro hash db it db' h hord
  simp only [processItem] at h
  split at h
  · cases h
  · next pfx hpfx =>
    split at h
    · cases h
    · split_ifs at h <;>
        first
          | cases h
          | (split at h
             · cases h
             · next hfind =>
               refine ⟨_, ((Prod.mk.injEq _ _ _ _).mp h).1.symm, ?_⟩
               intro a b ha hb
               exact deriveAmounts_ordered pfx it hord a b ha hb)

/-- Witness for C4 (amended): a concrete ordered CONGRESS insert. -/
theorem C4_insert_ordered_of_supplied_ordered_witness :
    processItem trivialHash []
        { form := "congress".data, external_id := some "e2".data,
          amount_usd_low := some 100, amount_usd_high := some 200 } =
      ([⟨"e2".data, none, none, none, none, none, some "CONGRESS".data, none,
          none, none, some 100, some 200, none, none⟩], Outcome.ins) ∧
    (∃ t, [(⟨"e2".data, none, none, none, none, none, some "CONGRESS".data, none,
          none, none, some 100, some 200, none, none⟩ : Trade)] = [] ++ [t] ∧
      ∀ a b : Int, t.amount_usd_low = some a → t.amount_usd_high = some b →
        a ≤ b) := by
  have hp : processItem trivialHash []
      { form := "congress".data, external_id := some "e2".data,
        amount_usd_low := some 100, amount_usd_high := some 200 } =
      ([⟨"e2".data, none, none, none, none, none, some "CONGRESS".data, none,
          none, none, some 100, some 200, none, none⟩], Outcome.ins) := by decide
  refine ⟨hp, ?_⟩
  exact C4_insert_ordered_of_supplied_ordered trivialHash []
    { form := "congress".data, external_id := some "e2".data,
      amount_usd_low := some 100, amount_usd_high := some 200 } _ hp
    (fun a b ha hb => by
      injection ha with ha'
      injection hb with hb'
      omega)

theorem ingestLoop_append (hash : Stable → Str) (xs ys : List Item) :
    ∀ (i : Nat) (s : BState),
      ingestLoop hash i s (xs ++ ys) =
        ingestLoop hash (i + xs.length) (ingestLoop hash i s xs) ys := by
  induction xs with
  | nil => intro i s; simp [ingestLoop]
  | cons x r ih =>
    intro i s
    show ingestLoop hash (i + 1) (ingestStep hash i s x) (r ++ ys) = _
    rw [ih (i + 1) (ingestStep hash i s x)]
    show _ = ingestLoop hash (i + (r.length + 1))
      (ingestLoop hash (i + 1) (ingestStep hash i s x) r) ys
    congr 1
    omega

theorem ingestStep_core_congr (hash : Stable → Str) {i j : Nat} {s1 s2 : BState}
    (it : Item) (h : stateCore s1 = stateCore s2) :
    stateCore (ingestStep hash i s1 it) = stateCore (ingestStep hash j s2 it) := by
  have hdb : s1.db = s2.db := congrArg (fun c => c.1) h
  have hi : s1.inserted = s2.inserted := congrArg (fun c => c.2.1) h
  have hu : s1.updated = s2.updated := congrArg (fun c => c.2.2.1) h
  have hk : s1.skipped_empty = s2.skipped_empty := congrArg (fun c => c.2.2.2) h
  unfold ingestStep
  rw [hdb]
  rcases hpi : processItem hash s2.db it with ⟨db', o⟩
  cases o <;> simp [stateCore, hi, hu, hk]

theorem ingestLoop_core_congr (hash : Stable → Str) (l : List Item) :
    ∀ {i j : Nat} {s1 s2 : BState}, stateCore s1 = stateCore s2 →
      stateCore (ingestLoop hash i s1 l) = stateCore (ingestLoop hash j s2 l) := by
  induction l with
  | nil => intro i j s1 s2 h; exact h
  | cons x r ih => intro i j s1 s2 h; exact ih (ingestStep_core_congr hash x h)

theorem ingestLoop_errors_prefix (hash : Stable → Str) (l : List Item) :
    ∀ (i : Nat) (s : BState), s.errors <+: (ingestLoop hash i s l).errors := by
  induction l with
  | nil => intro i s; exact List.prefix_refl _
  | cons x r ih =>
    intro i s
    refine List.IsPrefix.trans ?_ (ih (i + 1) (ingestStep hash i s x))
    unfold ingestStep
    rcases hpo : processItem hash s.db x with ⟨db', o⟩
    cases o <;> simp

/-- C7.  A CONGRESS item with a missing bound (after midpoint
substitution) is rejected with a per-item error carrying its batch index,
and the rest of the batch is processed exactly as if the bad item were not
there: same table, same inserted/updated/skipped counters. -/
theorem C7_congress_missing_bounds_isolated :
    ∀ (hash : Stable → Str) (xs ys : List Item) (it : Item),
      formPrefixOf (resolveForm it).1 = some "CONGRESS".data →
      ((amountsAfterMidpoint it).1 = none ∨ (amountsAfterMidpoint it).2 = none) →
      (xs.length, IngestErr.congressAmounts) ∈
          (ingestTrades hash (xs ++ it :: ys)).errors ∧
        stateCore (ingestTrades hash (xs ++ it :: ys)) =
          stateCore (ingestTrades hash (xs ++ ys)) := by
  intro hash xs ys it hpfx hmiss
  have hsplit1 : ingestTrades hash (xs ++ it :: ys) =
      ingestLoop hash (0 + xs.length) (ingestLoop hash 0 initBState xs) (it :: ys) :=
    ingestLoop_append hash xs (it :: ys) 0 initBState
  have hsplit2 : ingestTrades hash (xs ++ ys) =
      ingestLoop hash (0 + xs.length) (ingestLoop hash 0 initBState xs) ys :=
    ingestLoop_append hash xs ys 0 initBState
  set sxs := ingestLoop hash 0 initBState xs with hsxs
  have hstep : ingestStep hash (0 + xs.length) sxs it =
      { sxs with errors := sxs.errors ++ [(0 + xs.length, IngestErr.congressAmounts)] } := by
    unfold ingestStep
    rw [processItem_congress hash sxs.db it hpfx hmiss]
  constructor
  · rw [hsplit1]
    show (xs.length, IngestErr.congressAmounts) ∈
      (ingestLoop hash (0 + xs.length + 1)
        (ingestStep hash (0 + xs.length) sxs it) ys).errors
    have hpre := ingestLoop_errors_prefix hash ys (0 + xs.length + 1)
      (ingestStep hash (0 + xs.length) sxs it)
    have hmem : (xs.length, IngestErr.congressAmounts) ∈
        (ingestStep hash (0 + xs.length) sxs it).errors := by
      rw [hstep]
      simp
    exact List.Sublist.mem hmem hpre.sublist
  · rw [hsplit1, hsplit2]
    show stateCore (ingestLoop hash (0 + xs.length + 1)
        (ingestStep hash (0 + xs.length) sxs it) ys) = _
    refine ingestLoop_core_congr hash ys ?_
    rw [hstep]
    rfl

/-- Witness for C7: a concrete three-item batch whose middle item is
CONGRESS with no bounds. -/
theorem C7_congress_missing_bounds_isolated_witness :
    (formPrefixOf (resolveForm { form := "congress".data }).1 = some "CONGRESS".data ∧
      (amountsAfterMidpoint { form := "congress".data }).1 = none) ∧
    ((1, IngestErr.congressAmounts) ∈
        (ingestTrades trivialHash
          ([{ form := "form 4".data, external_id := some "a1".data }] ++
            { form := "congress".data } ::
              [{ form := "form 3".data, external_id := some "b1".data }])).errors ∧
      stateCore (ingestTrades trivialHash
          ([{ form := "form 4".data, external_id := some "a1".data }] ++
            { form := "congress".data } ::
              [{ form := "form 3".data, external_id := some "b1".data }])) =
        stateCore (ingestTrades trivialHash
          ([{ form := "form 4".data, external_id := some "a1".data }] ++
            [{ form := "form 3".data, external_id := some "b1".data }]))) :=
  ⟨⟨by decide, by decide⟩,
    C7_congress_missing_bounds_isolated trivialHash
      [{ form := "form 4".data, external_id := some "a1".data }]
      [{ form := "form 3".data, external_id := some "b1".data }]
      { form := "congress".data } (by decide) (Or.inl (by decide))⟩

/-!  ### Classifier idempotence (C6) -/

theorem upperChar_of_find_none {c : Char}
    (hf : upperTable.find? (fun pr => pr.1 = c) = none) : upperChar c = c := by
  unfold upperChar
  rw [hf]

theorem upperChar_of_find_some {c : Char} {pr : Char × Char}
    (hf : upperTable.find? (fun pr => pr.1 = c) = some pr) : upperChar c = pr.2 := by
  unfold upperChar
  rw [hf]

theorem lowerChar_upperChar (c : Char) : lowerChar (upperChar c) = lowerChar c := by
  cases hf : upperTable.find? (fun pr => pr.1 = c) with
  | none => rw [upperChar_of_find_none hf]
  | some pr =>
    rw [upperChar_of_find_some hf]
    have hc := List.find?_some hf
    simp only [decide_eq_true_eq] at hc
    subst hc
    have hall : ∀ x ∈ upperTable, lowerChar x.2 = lowerChar x.1 := by decide
    exact hall pr (List.mem_of_find?_eq_some hf)

theorem upperChar_idem (c : Char) : upperChar (upperChar c) = upperChar c := by
  cases hf : upperTable.find? (fun pr => pr.1 = c) with
  | none =>
    rw [upperChar_of_find_none hf]
    exact upperChar_of_find_none hf
  | some pr =>
    rw [upperChar_of_find_some hf]
    have hall : ∀ x ∈ upperTable, upperChar x.2 = x.2 := by decide
    exact hall pr (List.mem_of_find?_eq_some hf)

theorem pyWS_upperChar (c : Char) : pyWS (upperChar c) = pyWS c := by
  cases hf : upperTable.find? (fun pr => pr.1 = c) with
  | none => rw [upperChar_of_find_none hf]
  | some pr =>
    rw [upperChar_of_find_some hf]
    have hc := List.find?_some hf
    simp only [decide_eq_true_eq] at hc
    subst hc
    have hall : ∀ x ∈ upperTable, pyWS x.2 = pyWS x.1 := by decide
    exact hall pr (List.mem_of_find?_eq_some hf)

theorem upperChar_no_special {c : Char} (h1 : c ≠ 'ß') (h2 : c ≠ 'ſ') :
    upperChar c ≠ 'ß' ∧ upperChar c ≠ 'ſ' := by
  cases hf : upperTable.find? (fun pr => pr.1 = c) with
  | none =>
    rw [upperChar_of_find_none hf]
    exact ⟨h1, h2⟩
  | some pr =>
    rw [upperChar_of_find_some hf]
    have hall : ∀ x ∈ upperTable, x.2 ≠ 'ß' ∧ x.2 ≠ 'ſ' := by decide
    exact hall pr (List.mem_of_find?_eq_some hf)

/-- On special-free strings `str.upper` is the plain character map. -/
theorem pyUpper_no_special {l : Str} (h : ∀ c ∈ l, c ≠ 'ß' ∧ c ≠ 'ſ') :
    pyUpper l = l.map upperChar := by
  induction l with
  | nil => rfl
  | cons c r ih =>
    have hc := h c (List.mem_cons_self c r)
    simp only [pyUpper, pyUpperChar, if_neg hc.1, if_neg hc.2, List.map_cons]
    rw [ih (fun d hd => h d (List.mem_cons_of_mem c hd))]
    rfl

theorem pyStrip_map (l : Str) :
    pyStrip (l.map upperChar) = (pyStrip l).map upperChar := by
  have hws : (pyWS ∘ upperChar) = pyWS := funext pyWS_upperChar
  unfold pyStrip
  rw [List.dropWhile_map, hws, ← List.map_reverse, List.dropWhile_map, hws,
    ← List.map_reverse]

theorem dropWhile_head_false {p : Char → Bool} :
    ∀ {l : Str} {a : Char} {r : Str}, l.dropWhile p = a :: r → p a = false := by
  intro l
  induction l with
  | nil => intro a r h; cases h
  | cons b m ih =>
    intro a r h
    rw [List.dropWhile_cons] at h
    split_ifs at h with hb
    · exact ih h
    · cases h
      simp only [Bool.not_eq_true] at hb
      exact hb

theorem dropWhile_dropWhile (p : Char → Bool) (l : Str) :
    (l.dropWhile p).dropWhile p = l.dropWhile p := by
  cases hl : l.dropWhile p with
  | nil => rfl
  | cons a r =>
    rw [List.dropWhile_cons, dropWhile_head_false hl]
    simp

theorem pyStrip_idem (l : Str) : pyStrip (pyStrip l) = pyStrip l := by
  have h1 : (pyStrip l).dropWhile pyWS = pyStrip l := by
    cases hcr : pyStrip l with
    | nil => rfl
    | cons a r =>
      have hpre : a :: r <+: l.dropWhile pyWS := by
        have hsuf : (l.dropWhile pyWS).reverse.dropWhile pyWS <:+
            (l.dropWhile pyWS).reverse := List.dropWhile_suffix _
        have h2 := List.reverse_prefix.mpr hsuf
        rw [List.reverse_reverse] at h2
        rw [← hcr]
        exact h2
      obtain ⟨t, ht⟩ := hpre
      have hpa : pyWS a = false := by
        refine dropWhile_head_false (l := l) (r := r ++ t) ?_
        rw [← ht]
        rfl
      rw [List.dropWhile_cons, hpa]
      simp
  show ((((pyStrip l).dropWhile pyWS).reverse).dropWhile pyWS).reverse = pyStrip l
  rw [h1]
  show ((((((l.dropWhile pyWS).reverse).dropWhile pyWS).reverse).reverse).dropWhile
      pyWS).reverse = pyStrip l
  rw [List.reverse_reverse, dropWhile_dropWhile]
  rfl

theorem pyStrip_subset {c : Char} {l : Str} (h : c ∈ pyStrip l) : c ∈ l := by
  unfold pyStrip at h
  rw [List.mem_reverse] at h
  have h2 : c ∈ (l.dropWhile pyWS).reverse :=
    List.Sublist.mem h (List.dropWhile_suffix pyWS).sublist
  rw [List.mem_reverse] at h2
  exact List.Sublist.mem h2 (List.dropWhile_suffix pyWS).sublist

theorem pyUpper_ne_nil {l : Str} (h : l ≠ []) : pyUpper l ≠ [] := by
  cases l with
  | nil => exact absurd rfl h
  | cons c r =>
    simp only [pyUpper, pyUpperChar]
    split_ifs <;> simp

/-- Re-normalizing any output of the classifier returns it unchanged, for
special-free stripped non-empty input. -/
theorem classifyRaw_stable (raw : Str) (hs : pyStrip raw = raw) (hne : raw ≠ [])
    (hsp : ∀ c ∈ raw, c ≠ 'ß' ∧ c ≠ 'ſ') :
    normalizeFormStr (classifyRaw raw) = some (classifyRaw raw) := by
  unfold classifyRaw
  split_ifs with h1 h2 h3 h4 h5 h6 h7 h8
  · decide
  all_goals try {
    by_cases ham : amendFlag (mkT raw) = true
    · rw [show amendSuffix (mkT raw) = "/A".data from by unfold amendSuffix; rw [if_pos ham]]
      decide
    · rw [show amendSuffix (mkT raw) = [] from by
        unfold amendSuffix; rw [if_neg ham]]
      decide
  }
  · -- pass-through branch: the hard case
    have hU : pyUpper raw = raw.map upperChar := pyUpper_no_special hsp
    have hlow : pyLower (raw.map upperChar) = pyLower raw := by
      unfold pyLower
      rw [List.map_map]
      congr 1
      funext c
      exact lowerChar_upperChar c
    have hmkT : mkT (pyUpper raw) = mkT raw := by
      rw [hU]
      unfold mkT
      rw [hlow]
    have hstripU : pyStrip (pyUpper raw) = pyUpper raw := by
      rw [hU, pyStrip_map, hs]
    have hneU : pyUpper raw ≠ [] := pyUpper_ne_nil hne
    have hspU : ∀ c ∈ pyUpper raw, c ≠ 'ß' ∧ c ≠ 'ſ' := by
      rw [hU]
      intro c hc
      rcases List.mem_map.mp hc with ⟨d, hd, rfl⟩
      exact upperChar_no_special (hsp d hd).1 (hsp d hd).2
    have hupperU : pyUpper (pyUpper raw) = pyUpper raw := by
      rw [pyUpper_no_special hspU, hU, List.map_map]
      congr 1
      funext c
      exact upperChar_idem c
    have hclass : classifyRaw (pyUpper raw) = pyUpper raw := by
      unfold classifyRaw
      rw [hmkT]
      rw [if_neg h1, if_neg h2, if_neg h3, if_neg h4, if_neg h5, if_neg h6, if_neg h7,
        if_pos h8]
      exact hupperU
    unfold normalizeFormStr
    rw [hstripU, if_neg (by simpa using hneU), hclass]
  · -- default branch: the classifier returns `raw` itself and recomputes
    -- identically on it
    have hclass : classifyRaw raw = raw := by
      unfold classifyRaw
      rw [if_neg h1, if_neg h2, if_neg h3, if_neg h4, if_neg h5, if_neg h6, if_neg h7,
        if_neg h8]
    unfold normalizeFormStr
    rw [hs, if_neg (by simpa using hne), hclass]

/-- C6 counterexample.  CPython's non-roundtripping case mappings break
idempotence.  `normalize_form("form congreß")` takes the pass-through
branch and returns `"form congreß".upper() = "FORM CONGRESS"` (since
`'ß'.upper() == 'SS'`, one character to two), whose re-normalization hits
the congress rule and returns `"CONGRESS"`; the two classify differently
(`None` vs `CONGRESS`).  The long s `'ſ'` does the same without any
length change: `'ſ'.upper()` is the single character `'S'`, which
lowercases to `'s'` rather than back to `'ſ'`, so
`normalize_form("form congreſs")` also yields `"FORM CONGRESS"` and then
`"CONGRESS"` on re-normalization. -/
theorem C6_cx_eszett_breaks_idempotence :
    (normalizeFormStr "form congreß".data = some "FORM CONGRESS".data ∧
    normalizeFormOpt (normalizeFormStr "form congreß".data) = some "CONGRESS".data ∧
    ¬ formPrefixOf (normalizeFormStr "form congreß".data) =
        formPrefixOf (normalizeFormOpt (normalizeFormStr "form congreß".data))) ∧
    (normalizeFormStr "form congreſs".data = some "FORM CONGRESS".data ∧
    normalizeFormOpt (normalizeFormStr "form congreſs".data) = some "CONGRESS".data ∧
    ¬ formPrefixOf (normalizeFormStr "form congreſs".data) =
        formPrefixOf (normalizeFormOpt (normalizeFormStr "form congreſs".data))) := by
  refine ⟨⟨by decide, by decide, by decide⟩, by decide, by decide, by decide⟩

/-- C6 (amended).  `formPrefix(normalizeForm(x)) =
formPrefix(normalizeForm(normalizeForm(x)))` holds for every string
containing neither `'ß'` (whose CPython `upper()` is the two-character
`"SS"`) nor `'ſ'` (whose `upper()` is the single character `'S'`, which
lowercases to `'s'`, not back to `'ſ'`) - in particular for all ASCII
strings; re-normalization is then literally the identity on classifier
output. -/
theorem C6_classifier_idempotent_no_multichar_upper :
    ∀ x : Str, (∀ c ∈ x, c ≠ 'ß' ∧ c ≠ 'ſ') →
      formPrefixOf (normalizeFormStr x) =
        formPrefixOf (normalizeFormOpt (normalizeFormStr x)) := by
  intro x hsp
  unfold normalizeFormStr
  by_cases hemp : (pyStrip x).isEmpty = true
  · rw [if_pos hemp]
    rfl
  · rw [if_neg hemp]
    show formPrefixOf (some (classifyRaw (pyStrip x))) =
      formPrefixOf (normalizeFormStr (classifyRaw (pyStrip x)))
    rw [classifyRaw_stable (pyStrip x) (pyStrip_idem x)
      (fun h => hemp (by rw [h]; rfl))
      (fun c hc => hsp c (pyStrip_subset hc))]

/-- Witness for C6 (amended): the special-free hypothesis discharged at
the ASCII input `"form 4"`. -/
theorem C6_classifier_idempotent_witness :
    (∀ c ∈ "form 4".data, c ≠ 'ß' ∧ c ≠ 'ſ') ∧
      formPrefixOf (normalizeFormStr "form 4".data) =
        formPrefixOf (normalizeFormOpt (normalizeFormStr "form 4".data)) :=
  ⟨by decide, C6_classifier_idempotent_no_multichar_upper "form 4".data (by decide)⟩

end Spec2Proof
